import Mathlib

/-!
# Verification of the rss-bridge-ntfy pipeline (`src/main.py`)

Shallow embedding of the ingestion–dedup–dispatch pipeline of `src/main.py`:

* `sha256Hex` / `utf8Encode` — the fingerprint digest (`hashlib.sha256(... .encode()).hexdigest()`),
  implemented bit-for-bit as FIPS 180-4 SHA-256 over byte lists, with 32-bit
  words represented as `Nat` reduced mod `2^32`;
* `entry_hash` — the fingerprint computed in `process_config_file` (lines 179–180);
* `delayValue` / `delay_for` — the priority/flood-control delay (lines 184–193);
* `processEntries` / `processConfigFile` / `processCycle` — the per-source entry
  loop (lines 167–201) and the per-cycle file enumeration of `main` (lines 212–215).

External effects are made explicit: the feed fetch is a function `url → entries`,
the HTTP post outcome and possible ledger (SQLite) failures are oracles in a
`World`; the ledger is the list of recorded hashes, dispatches are logged as data.
-/

/-! ## SHA-256 (FIPS 180-4) over byte lists -/

/-- Truncate to a 32-bit word. -/
def w32 (x : Nat) : Nat := x % 4294967296

/-- Right rotation of a 32-bit word. -/
def rotr32 (n x : Nat) : Nat := w32 ((x >>> n) ||| (x <<< (32 - n)))

/-- SHA-256 Ch function; ¬x is taken within 32 bits. -/
def shaCh (x y z : Nat) : Nat := (x &&& y) ^^^ ((x ^^^ 4294967295) &&& z)

/-- SHA-256 Maj function. -/
def shaMaj (x y z : Nat) : Nat := (x &&& y) ^^^ (x &&& z) ^^^ (y &&& z)

/-- SHA-256 Σ₀. -/
def bigSigma0 (x : Nat) : Nat := rotr32 2 x ^^^ rotr32 13 x ^^^ rotr32 22 x

/-- SHA-256 Σ₁. -/
def bigSigma1 (x : Nat) : Nat := rotr32 6 x ^^^ rotr32 11 x ^^^ rotr32 25 x

/-- SHA-256 σ₀. -/
def smallSigma0 (x : Nat) : Nat := rotr32 7 x ^^^ rotr32 18 x ^^^ (x >>> 3)

/-- SHA-256 σ₁. -/
def smallSigma1 (x : Nat) : Nat := rotr32 17 x ^^^ rotr32 19 x ^^^ (x >>> 10)

/-- The 64 SHA-256 round constants. -/
def sha256K : List Nat :=
  [1116352408, 1899447441, 3049323471, 3921009573, 961987163, 1508970993,
   2453635748, 2870763221, 3624381080, 310598401, 607225278, 1426881987,
   1925078388, 2162078206, 2614888103, 3248222580, 3835390401, 4022224774,
   264347078, 604807628, 770255983, 1249150122, 1555081692, 1996064986,
   2554220882, 2821834349, 2952996808, 3210313671, 3336571891, 3584528711,
   113926993, 338241895, 666307205, 773529912, 1294757372, 1396182291,
   1695183700, 1986661051, 2177026350, 2456956037, 2730485921, 2820302411,
   3259730800, 3345764771, 3516065817, 3600352804, 4094571909, 275423344,
   430227734, 506948616, 659060556, 883997877, 958139571, 1322822218,
   1537002063, 1747873779, 1955562222, 2024104815, 2227730452, 2361852424,
   2428436474, 2756734187, 3204031479, 3329325298]

/-- The SHA-256 initial hash state. -/
def sha256H0 : List Nat :=
  [1779033703, 3144134277, 1013904242, 2773480762,
   1359893119, 2600822924, 528734635, 1541459225]

/-- Pad a byte message per FIPS 180-4: append `0x80`, zeros, then the 64-bit
big-endian bit length, to a multiple of 64 bytes. -/
def sha256Pad (msg : List Nat) : List Nat :=
  let bitLen := msg.length * 8
  let padZeros := (119 - msg.length % 64) % 64
  msg ++ [0x80] ++ List.replicate padZeros 0 ++
    (List.range 8).map (fun i => (bitLen >>> ((7 - i) * 8)) % 256)

/-- Group bytes into big-endian 32-bit words. -/
def toWords : List Nat → List Nat
  | b0 :: b1 :: b2 :: b3 :: rest => (((b0 * 256 + b1) * 256 + b2) * 256 + b3) :: toWords rest
  | _ => []

/-- Split a word list into blocks of 16 words (fuel-driven so that it reduces
by structural recursion; called with fuel = length). -/
def chunks16Aux : Nat → List Nat → List (List Nat)
  | 0, _ => []
  | _ + 1, [] => []
  | n + 1, w :: ws => (w :: ws.take 15) :: chunks16Aux n (ws.drop 15)

/-- Split a word list into blocks of 16 words. -/
def chunks16 (ws : List Nat) : List (List Nat) := chunks16Aux ws.length ws

/-- Extend a 16-word block to the 64-word message schedule. -/
def schedule (block : List Nat) : List Nat :=
  (List.range 48).foldl
    (fun acc _ =>
      acc ++ [w32 (smallSigma1 (acc.getD (acc.length - 2) 0) + acc.getD (acc.length - 7) 0 +
        smallSigma0 (acc.getD (acc.length - 15) 0) + acc.getD (acc.length - 16) 0)])
    block

/-- One SHA-256 round: update the working state `[a,b,c,d,e,f,g,h]` with a
round constant and one schedule word. -/
def compressStep (st : List Nat) (kw : Nat × Nat) : List Nat :=
  match st with
  | [a, b, c, d, e, f, g, h] =>
    let t1 := w32 (h + bigSigma1 e + shaCh e f g + kw.1 + kw.2)
    let t2 := w32 (bigSigma0 a + shaMaj a b c)
    [w32 (t1 + t2), a, b, c, w32 (d + t1), e, f, g]
  | s => s

/-- Compress one 16-word block into the running hash state. -/
def compressBlock (h : List Nat) (block : List Nat) : List Nat :=
  let final := (sha256K.zip (schedule block)).foldl compressStep h
  (h.zip final).map (fun p => w32 (p.1 + p.2))

/-- SHA-256 of a byte message, as the list of 8 final 32-bit state words. -/
def sha256Words (msg : List Nat) : List Nat :=
  (chunks16 (toWords (sha256Pad msg))).foldl compressBlock sha256H0

/-- Lower-case hex digit. -/
def hexChar (n : Nat) : Char := if n < 10 then Char.ofNat (48 + n) else Char.ofNat (87 + n)

/-- A 32-bit word as 8 lower-case hex characters, most significant first. -/
def wordHex (w : Nat) : List Char := (List.range 8).map (fun i => hexChar ((w >>> ((7 - i) * 4)) % 16))

/-- `hashlib.sha256(msg).hexdigest()`: the 64-character lower-case hex digest. -/
def sha256Hex (msg : List Nat) : String :=
  ⟨(sha256Words msg).foldr (fun w acc => wordHex w ++ acc) []⟩

/-- UTF-8 encoding of one character (by Unicode scalar value). -/
def utf8EncodeChar (c : Char) : List Nat :=
  let n := c.toNat
  if n < 128 then [n]
  else if n < 2048 then [192 ||| (n >>> 6), 128 ||| (n &&& 63)]
  else if n < 65536 then [224 ||| (n >>> 12), 128 ||| ((n >>> 6) &&& 63), 128 ||| (n &&& 63)]
  else [240 ||| (n >>> 18), 128 ||| ((n >>> 12) &&& 63), 128 ||| ((n >>> 6) &&& 63), 128 ||| (n &&& 63)]

/-- Python's `str.encode()`: UTF-8 bytes of a string. -/
def utf8Encode (s : String) : List Nat :=
  s.data.foldr (fun c acc => utf8EncodeChar c ++ acc) []

/-! ## Data model -/

/-- A parsed feed entry, as consumed by `process_config_file` / `send_ntfy`:
only the fields the pipeline reads. `none` models an absent key in the
feedparser entry dict. -/
structure Entry where
  id : Option String
  link : Option String
  title : Option String
  deriving DecidableEq, Repr

/-- One feed-source descriptor from a configuration JSON file:
`{name, url, priority?, icon?}`. `priority` is modelled already as the integer
`int(prio)` of the code (the code reads it as a string/number and converts). -/
structure FeedConf where
  name : String
  url : String
  priority : Option Int
  icon : Option String
  deriving DecidableEq, Repr

/-- `entry.get('id', entry.get('link', 'unknown_id'))` (main.py line 179). -/
def entry_id (e : Entry) : String := e.id.getD (e.link.getD "unknown_id")

/-- `hashlib.sha256(f"{topic}_{entry_id}".encode()).hexdigest()` (main.py line 180). -/
def entry_hash (topic : String) (e : Entry) : String :=
  sha256Hex (utf8Encode (topic ++ "_" ++ entry_id e))

/-- The fingerprint as a function of the topic and the entry identity string
(the digest input is `"{topic}_{identity}"`). -/
def fingerprintOfIdentity (topic identity : String) : String :=
  sha256Hex (utf8Encode (topic ++ "_" ++ identity))

/-! ## Priority delay scheduler (main.py lines 184–193) -/

/-- Unit of a delay token: `"…s"` or `"…m"`. -/
inductive DelayUnit where
  | seconds
  | minutes
  deriving DecidableEq, Repr

/-- Suffix used when rendering a delay token. -/
def DelayUnit.suffix : DelayUnit → String
  | .seconds => "s"
  | .minutes => "m"

/-- The delay policy of main.py lines 185–193, branch for branch:
`p = int(prio)`; no delay unless `p < 5`; `p == 4` gives
`f"{sent_in_batch * 30 + 10}s"`, `p == 3` gives `f"{sent_in_batch * 5 + 5}m"`,
any other `p < 5` gives `f"{sent_in_batch * 10 + 15}m"`. Returned here as the
numeric amount and unit; `delay_for` renders the string. -/
def delayValue (p : Int) (sent_in_batch : Nat) : Option (Nat × DelayUnit) :=
  if p < 5 then
    if p = 4 then some (sent_in_batch * 30 + 10, .seconds)
    else if p = 3 then some (sent_in_batch * 5 + 5, .minutes)
    else some (sent_in_batch * 10 + 15, .minutes)
  else none

/-- The delay string exactly as the code builds it (`None` = no `Delay` header). -/
def delay_for (p : Int) (sent_in_batch : Nat) : Option String :=
  (delayValue p sent_in_batch).map (fun v => toString v.1 ++ v.2.suffix)

/-- Seconds per delay unit. -/
def unitSeconds : DelayUnit → Nat
  | .seconds => 1
  | .minutes => 60

/-- Interpretation of a delay as a duration in seconds (`None` ↦ 0, i.e. an
immediate send; `"…m"` ↦ 60·amount). -/
def delaySeconds (p : Int) (sent_in_batch : Nat) : Nat :=
  ((delayValue p sent_in_batch).map (fun v => v.1 * unitSeconds v.2)).getD 0

/-! ## Pipeline state and effect oracles -/

/-- The arguments of one `send_ntfy` call (main.py line 195), plus `ok`, the
outcome of the HTTP post — which `send_ntfy` catches and logs internally
(lines 149–154) and never propagates. -/
structure Dispatch where
  entry : Entry
  source_name : String
  icon : Option String
  topic : String
  priority : Int
  delay : Option String
  ok : Bool
  deriving DecidableEq, Repr

/-- Outcomes of the external world: `sendOk k` is whether the `k`-th HTTP post
of the run succeeds (2xx), `ledgerOk k` whether the `k`-th SQLite ledger
operation (SELECT, or INSERT+commit) succeeds or raises. -/
structure World where
  sendOk : Nat → Bool
  ledgerOk : Nat → Bool

/-- Mutable state threaded through one cycle: the `seen_entries` ledger rows
(hashes, in insertion order), the chronological log of `send_ntfy` calls, and
the count of ledger operations so far (used to index the failure oracle). -/
structure PState where
  ledger : List String
  dispatches : List Dispatch
  ops : Nat
  deriving Repr

/-! ## Feed source processor (main.py lines 167–201) -/

/-- The entry loop of `process_config_file` for one feed source
(main.py lines 173–199). Returns the final state, the final `sent_in_batch`,
and whether a ledger operation raised (aborting this source's remaining
entries — the exception is caught by the per-source `except` at line 200).
The SELECT at line 182 and the INSERT+commit at lines 197–198 are each one
ledger operation; the HTTP post outcome is recorded in the dispatch log but —
as in `send_ntfy` — never alters control flow. -/
def processEntries (w : World) (topic : String) (conf : FeedConf) :
    List Entry → Nat → PState → PState × Nat × Bool
  | [], sent, st => (st, sent, false)
  | e :: rest, sent, st =>
    if 3 ≤ sent then (st, sent, false)
    else
      let h := entry_hash topic e
      if w.ledgerOk st.ops then
        let st₁ : PState := { st with ops := st.ops + 1 }
        if h ∈ st₁.ledger then
          processEntries w topic conf rest sent st₁
        else
          let prio := conf.priority.getD 3
          let d : Dispatch :=
            { entry := e, source_name := conf.name, icon := conf.icon, topic := topic,
              priority := prio, delay := delay_for prio sent,
              ok := w.sendOk st₁.dispatches.length }
          let st₂ : PState := { st₁ with dispatches := st₁.dispatches ++ [d] }
          if w.ledgerOk st₂.ops then
            let st₃ : PState := { st₂ with ledger := st₂.ledger ++ [h], ops := st₂.ops + 1 }
            processEntries w topic conf rest (sent + 1) st₃
          else
            ({ st₂ with ops := st₂.ops + 1 }, sent, true)
      else
        ({ st with ops := st.ops + 1 }, sent, true)

/-- `process_config_file` (main.py lines 157–201) for one configuration file:
the topic is the file's base name without extension; each feed source is
fetched (`fetch` models `feedparser.parse`) and processed with a fresh
`sent_in_batch = 0`; any exception from one source (e.g. a ledger failure) is
caught at line 200 and the loop proceeds to the next source. -/
def processConfigFile (w : World) (fetch : String → List Entry) (topic : String)
    (confs : List FeedConf) (st : PState) : PState :=
  confs.foldl (fun st conf => (processEntries w topic conf (fetch conf.url) 0 st).1) st

/-- `os.path.splitext(...)[0]`: strip the extension after the last dot; a dot
with only dots before it does not start an extension. -/
def splitextRoot (p : String) : String :=
  let cs := p.data
  match (List.range cs.length).foldl (fun acc i => if cs.getD i ' ' = '.' then some i else acc) none with
  | none => p
  | some i => if (cs.take i).all (· = '.') then p else ⟨cs.take i⟩

/-- Python's `str.endswith`: the suffix's characters are a suffix of the
string's characters. -/
def strEndsWith (s suffix : String) : Bool := suffix.data.isSuffixOf s.data

/-- `sorted([f for f in os.listdir(CONFIG_DIR) if f.endswith('.json')])`
(main.py line 213). `mergeSort` with `≤` on strings is lexicographic by code
point, as Python's `sorted`. -/
def selectConfigFiles (listing : List String) : List String :=
  (listing.filter (fun f => strEndsWith f ".json")).mergeSort (fun a b => decide (a ≤ b))

/-- One cycle of `main` (main.py lines 204–216): enumerate the configuration
directory (`listing` models `os.listdir`), keep the sorted `.json` files, and
process each through `process_config_file`; `contents` models the parsed JSON
of each file (its list of feed descriptors). -/
def processCycle (w : World) (fetch : String → List Entry)
    (contents : String → List FeedConf) (listing : List String) (st : PState) : PState :=
  (selectConfigFiles listing).foldl
    (fun st fname => processConfigFile w fetch (splitextRoot fname) (contents fname) st) st

/-! ## Derived and spec-side definitions -/

/-- The fingerprint as the spec words it (refinement reference for `entry_hash`):
identity precedence — the entry's native id, else its link, else the literal
`"unknown_id"` — and digest = SHA-256 of the UTF-8 string `"{topic}_{identity}"`. -/
def fingerprintSpec (topic : String) (e : Entry) : String :=
  let identity : String :=
    match e.id with
    | some i => i
    | none =>
      match e.link with
      | some l => l
      | none => "unknown_id"
  sha256Hex (utf8Encode (topic ++ "_" ++ identity))

/-- A dispatch with its transport outcome erased: exactly the arguments
`process_config_file` passes to `send_ntfy`. -/
def Dispatch.core (d : Dispatch) : Entry × String × Option String × String × Int × Option String :=
  (d.entry, d.source_name, d.icon, d.topic, d.priority, d.delay)

/-! ## Concrete data used by the witness theorems -/

/-- A world where every HTTP post and every ledger operation succeeds. -/
def wAllOk : World := ⟨fun _ => true, fun _ => true⟩

/-- A world where every HTTP post fails (the ledger is healthy). -/
def wNoSend : World := ⟨fun _ => false, fun _ => true⟩

/-- A world whose very first ledger operation raises. -/
def wFail0 : World := ⟨fun _ => true, fun k => decide (k ≠ 0)⟩

/-- The empty starting state: fresh ledger, no dispatches logged. -/
def st0 : PState := ⟨[], [], 0⟩

/-- Five concrete feed entries with distinct ids. -/
def eW (k : Nat) : Entry := ⟨some ("a" ++ toString k), none, none⟩

/-- A concrete tier-3 feed source. -/
def confW : FeedConf := ⟨"src", "http://u", some 3, none⟩

/-- Two concrete feed sources for the multi-source scenarios. -/
def confA : FeedConf := ⟨"s1", "u1", none, none⟩

/-- Second concrete feed source. -/
def confB : FeedConf := ⟨"s2", "u2", none, none⟩

/-- A concrete fetch: source `u1` yields entry `a1`, anything else `a2`. -/
def fetchW : String → List Entry := fun u => if u = "u1" then [eW 1] else [eW 2]

/-- Starting state whose ledger already holds the fingerprint of entry `a1`. -/
def stSeen : PState := ⟨[entry_hash "t" (eW 1)], [], 0⟩
/-! ## Step lemmas for the entry loop -/

/-- An empty entry list leaves the state untouched. -/
theorem processEntries_nil {w : World} {topic : String} {conf : FeedConf} {sent : Nat} {st : PState} :
    processEntries w topic conf [] sent st = (st, sent, false) := rfl

/-- Once `sent_in_batch` has reached 3, the loop breaks (main.py lines 174–176). -/
theorem processEntries_cap {w : World} {topic : String} {conf : FeedConf}
    {e : Entry} {rest : List Entry} {sent : Nat} {st : PState} (h3 : 3 ≤ sent) :
    processEntries w topic conf (e :: rest) sent st = (st, sent, false) := by
  simp [processEntries, h3]

/-- A failing ledger SELECT raises, aborting this source's entries. -/
theorem processEntries_fail {w : World} {topic : String} {conf : FeedConf}
    {e : Entry} {rest : List Entry} {sent : Nat} {st : PState}
    (h3 : ¬ 3 ≤ sent) (hf : w.ledgerOk st.ops = false) :
    processEntries w topic conf (e :: rest) sent st = ({ st with ops := st.ops + 1 }, sent, true) := by
  simp [processEntries, h3, hf]

/-- An entry whose fingerprint is already in the ledger is skipped entirely. -/
theorem processEntries_seen {w : World} {topic : String} {conf : FeedConf}
    {e : Entry} {rest : List Entry} {sent : Nat} {st : PState}
    (h3 : ¬ 3 ≤ sent) (ht : w.ledgerOk st.ops = true) (hm : entry_hash topic e ∈ st.ledger) :
    processEntries w topic conf (e :: rest) sent st
      = processEntries w topic conf rest sent { st with ops := st.ops + 1 } := by
  simp [processEntries, h3, ht, hm]

/-- A fresh entry is dispatched, recorded, and the batch counter increments. -/
theorem processEntries_fresh {w : World} {topic : String} {conf : FeedConf}
    {e : Entry} {rest : List Entry} {sent : Nat} {st : PState}
    (h3 : ¬ 3 ≤ sent) (ht : w.ledgerOk st.ops = true) (ht2 : w.ledgerOk (st.ops + 1) = true)
    (hm : entry_hash topic e ∉ st.ledger) :
    processEntries w topic conf (e :: rest) sent st
      = processEntries w topic conf rest (sent + 1)
          { ledger := st.ledger ++ [entry_hash topic e],
            dispatches := st.dispatches ++
              [{ entry := e, source_name := conf.name, icon := conf.icon, topic := topic,
                 priority := conf.priority.getD 3, delay := delay_for (conf.priority.getD 3) sent,
                 ok := w.sendOk st.dispatches.length }],
            ops := st.ops + 1 + 1 } := by
  simp [processEntries, h3, ht, ht2, hm]

/-- A fresh entry whose INSERT/commit raises: dispatched but not recorded,
the counter does not increment, and the source aborts. -/
theorem processEntries_fresh_fail {w : World} {topic : String} {conf : FeedConf}
    {e : Entry} {rest : List Entry} {sent : Nat} {st : PState}
    (h3 : ¬ 3 ≤ sent) (ht : w.ledgerOk st.ops = true) (hf2 : w.ledgerOk (st.ops + 1) = false)
    (hm : entry_hash topic e ∉ st.ledger) :
    processEntries w topic conf (e :: rest) sent st
      = ({ ledger := st.ledger,
           dispatches := st.dispatches ++
             [{ entry := e, source_name := conf.name, icon := conf.icon, topic := topic,
                priority := conf.priority.getD 3, delay := delay_for (conf.priority.getD 3) sent,
                ok := w.sendOk st.dispatches.length }],
           ops := st.ops + 1 + 1 }, sent, true) := by
  simp [processEntries, h3, ht, hf2, hm]

/-- Structure of one source run: it only appends to the ledger and the
dispatch log, every appended dispatch has a fingerprint that was absent from
the starting ledger, and every appended ledger row was absent as well. Holds
under any send/ledger oracle. -/
theorem processEntries_delta (w : World) (topic : String) (conf : FeedConf) :
    ∀ (entries : List Entry) (sent : Nat) (st : PState),
      ∃ ΔL Δd,
        (processEntries w topic conf entries sent st).1.ledger = st.ledger ++ ΔL ∧
        (processEntries w topic conf entries sent st).1.dispatches = st.dispatches ++ Δd ∧
        (∀ d ∈ Δd, entry_hash topic d.entry ∉ st.ledger) ∧
        (∀ x ∈ ΔL, x ∉ st.ledger) := by
  intro entries
  induction entries with
  | nil =>
      intro sent st
      exact ⟨[], [], by simp [processEntries_nil], by simp [processEntries_nil], by simp, by simp⟩
  | cons e rest ih =>
      intro sent st
      by_cases h3 : 3 ≤ sent
      · exact ⟨[], [], by rw [processEntries_cap h3]; simp, by rw [processEntries_cap h3]; simp,
          by simp, by simp⟩
      · cases hOp : w.ledgerOk st.ops with
        | false =>
            exact ⟨[], [], by rw [processEntries_fail h3 hOp]; simp,
              by rw [processEntries_fail h3 hOp]; simp, by simp, by simp⟩
        | true =>
            by_cases hm : entry_hash topic e ∈ st.ledger
            · obtain ⟨ΔL, Δd, hL, hD, hfd, hfl⟩ := ih sent { st with ops := st.ops + 1 }
              exact ⟨ΔL, Δd, by rw [processEntries_seen h3 hOp hm]; simpa using hL,
                by rw [processEntries_seen h3 hOp hm]; simpa using hD,
                by simpa using hfd, by simpa using hfl⟩
            · cases hOp2 : w.ledgerOk (st.ops + 1) with
              | true =>
                  obtain ⟨ΔL, Δd, hL, hD, hfd, hfl⟩ := ih (sent + 1)
                    { ledger := st.ledger ++ [entry_hash topic e],
                      dispatches := st.dispatches ++
                        [{ entry := e, source_name := conf.name, icon := conf.icon, topic := topic,
                           priority := conf.priority.getD 3,
                           delay := delay_for (conf.priority.getD 3) sent,
                           ok := w.sendOk st.dispatches.length }],
                      ops := st.ops + 1 + 1 }
                  refine ⟨entry_hash topic e :: ΔL,
                    { entry := e, source_name := conf.name, icon := conf.icon, topic := topic,
                      priority := conf.priority.getD 3,
                      delay := delay_for (conf.priority.getD 3) sent,
                      ok := w.sendOk st.dispatches.length } :: Δd, ?_, ?_, ?_, ?_⟩
                  · rw [processEntries_fresh h3 hOp hOp2 hm]
                    simpa [List.append_assoc] using hL
                  · rw [processEntries_fresh h3 hOp hOp2 hm]
                    simpa [List.append_assoc] using hD
                  · intro d hd
                    rcases List.mem_cons.mp hd with h | h
                    · subst h; exact hm
                    · have := hfd d h
                      simp only [List.mem_append] at this
                      intro hc
                      exact this (Or.inl hc)
                  · intro x hx
                    rcases List.mem_cons.mp hx with h | h
                    · subst h; exact hm
                    · have := hfl x h
                      simp only [List.mem_append] at this
                      intro hc
                      exact this (Or.inl hc)
              | false =>
                  refine ⟨[],
                    [{ entry := e, source_name := conf.name, icon := conf.icon, topic := topic,
                       priority := conf.priority.getD 3,
                       delay := delay_for (conf.priority.getD 3) sent,
                       ok := w.sendOk st.dispatches.length }], ?_, ?_, ?_, ?_⟩
                  · rw [processEntries_fresh_fail h3 hOp hOp2 hm]; simp
                  · rw [processEntries_fresh_fail h3 hOp hOp2 hm]
                  · intro d hd
                    rcases List.mem_cons.mp hd with h | h
                    · subst h; exact hm
                    · simp at h
                  · simp

/-- With a healthy ledger, the batch counter counts exactly the appended
dispatches and never exceeds `max sent 3`. -/
theorem processEntries_sent (w : World) (topic : String) (conf : FeedConf)
    (hw : w.ledgerOk = fun _ => true) :
    ∀ (entries : List Entry) (sent : Nat) (st : PState),
      (processEntries w topic conf entries sent st).1.dispatches.length + sent
          = st.dispatches.length + (processEntries w topic conf entries sent st).2.1 ∧
        sent ≤ (processEntries w topic conf entries sent st).2.1 ∧
        (processEntries w topic conf entries sent st).2.1 ≤ max sent 3 := by
  intro entries
  induction entries with
  | nil =>
      intro sent st
      simp [processEntries_nil]
  | cons e rest ih =>
      intro sent st
      by_cases h3 : 3 ≤ sent
      · simp [processEntries_cap h3]
      · have ht : w.ledgerOk st.ops = true := by rw [hw]
        by_cases hm : entry_hash topic e ∈ st.ledger
        · rw [processEntries_seen h3 ht hm]
          have := ih sent { st with ops := st.ops + 1 }
          simpa using this
        · have ht2 : w.ledgerOk (st.ops + 1) = true := by rw [hw]
          rw [processEntries_fresh h3 ht ht2 hm]
          have := ih (sent + 1)
            { ledger := st.ledger ++ [entry_hash topic e],
              dispatches := st.dispatches ++
                [{ entry := e, source_name := conf.name, icon := conf.icon, topic := topic,
                   priority := conf.priority.getD 3,
                   delay := delay_for (conf.priority.getD 3) sent,
                   ok := w.sendOk st.dispatches.length }],
              ops := st.ops + 1 + 1 }
          simp at this ⊢
          omega

/-- With a healthy ledger, every dispatch in the final log is either an old
one or its entry's fingerprint is in the final ledger. -/
theorem processEntries_recorded (w : World) (topic : String) (conf : FeedConf)
    (hw : w.ledgerOk = fun _ => true) :
    ∀ (entries : List Entry) (sent : Nat) (st : PState),
      ∀ d ∈ (processEntries w topic conf entries sent st).1.dispatches,
        d ∈ st.dispatches ∨
          entry_hash topic d.entry ∈ (processEntries w topic conf entries sent st).1.ledger := by
  intro entries
  induction entries with
  | nil =>
      intro sent st d hd
      simp [processEntries_nil] at hd ⊢
      exact Or.inl hd
  | cons e rest ih =>
      intro sent st d hd
      by_cases h3 : 3 ≤ sent
      · rw [processEntries_cap h3] at hd ⊢
        exact Or.inl hd
      · have ht : w.ledgerOk st.ops = true := by rw [hw]
        by_cases hm : entry_hash topic e ∈ st.ledger
        · rw [processEntries_seen h3 ht hm] at hd ⊢
          have := ih sent { st with ops := st.ops + 1 } d hd
          simpa using this
        · have ht2 : w.ledgerOk (st.ops + 1) = true := by rw [hw]
          rw [processEntries_fresh h3 ht ht2 hm] at hd ⊢
          have h4 := ih (sent + 1)
            { ledger := st.ledger ++ [entry_hash topic e],
              dispatches := st.dispatches ++
                [{ entry := e, source_name := conf.name, icon := conf.icon, topic := topic,
                   priority := conf.priority.getD 3,
                   delay := delay_for (conf.priority.getD 3) sent,
                   ok := w.sendOk st.dispatches.length }],
              ops := st.ops + 1 + 1 } d hd
      -- from h4: either d in extended dispatches, or hash in final ledger
          rcases h4 with h4 | h4
          · simp only [List.mem_append, List.mem_singleton] at h4
            rcases h4 with h4 | h4
            · exact Or.inl h4
            · subst h4
              obtain ⟨ΔL, Δd, hL, hD, hfd, hfl⟩ := processEntries_delta w topic conf rest (sent + 1)
                { ledger := st.ledger ++ [entry_hash topic e],
                  dispatches := st.dispatches ++
                    [{ entry := e, source_name := conf.name, icon := conf.icon, topic := topic,
                       priority := conf.priority.getD 3,
                       delay := delay_for (conf.priority.getD 3) sent,
                       ok := w.sendOk st.dispatches.length }],
                  ops := st.ops + 1 + 1 }
              refine Or.inr ?_
              rw [hL]
              simp
          · exact Or.inr h4

/-- The run is insensitive to the HTTP send outcomes: two worlds with the same
ledger oracle produce the same ledger, operation count, counter, abort flag and
dispatch log modulo the logged `ok` bit. -/
theorem processEntries_core_eq (w₁ w₂ : World) (hled : w₁.ledgerOk = w₂.ledgerOk)
    (topic : String) (conf : FeedConf) :
    ∀ (entries : List Entry) (sent : Nat) (st₁ st₂ : PState),
      st₁.ledger = st₂.ledger → st₁.ops = st₂.ops →
      st₁.dispatches.map Dispatch.core = st₂.dispatches.map Dispatch.core →
      (processEntries w₁ topic conf entries sent st₁).1.ledger
          = (processEntries w₂ topic conf entries sent st₂).1.ledger ∧
        (processEntries w₁ topic conf entries sent st₁).1.ops
          = (processEntries w₂ topic conf entries sent st₂).1.ops ∧
        (processEntries w₁ topic conf entries sent st₁).1.dispatches.map Dispatch.core
          = (processEntries w₂ topic conf entries sent st₂).1.dispatches.map Dispatch.core ∧
        (processEntries w₁ topic conf entries sent st₁).2
          = (processEntries w₂ topic conf entries sent st₂).2 := by
  intro entries
  induction entries with
  | nil =>
      intro sent st₁ st₂ hLg hOps hDp
      simp [processEntries_nil, hLg, hOps, hDp]
  | cons e rest ih =>
      intro sent st₁ st₂ hLg hOps hDp
      by_cases h3 : 3 ≤ sent
      · simp [processEntries_cap h3, hLg, hOps, hDp]
      · cases hOp : w₁.ledgerOk st₁.ops with
        | false =>
            have hOp' : w₂.ledgerOk st₂.ops = false := by rw [← hled, ← hOps]; exact hOp
            simp [processEntries_fail h3 hOp, processEntries_fail h3 hOp', hLg, hOps, hDp]
        | true =>
            have hOp' : w₂.ledgerOk st₂.ops = true := by rw [← hled, ← hOps]; exact hOp
            by_cases hm : entry_hash topic e ∈ st₁.ledger
            · have hm' : entry_hash topic e ∈ st₂.ledger := hLg ▸ hm
              rw [processEntries_seen h3 hOp hm, processEntries_seen h3 hOp' hm']
              exact ih sent _ _ (by simpa using hLg) (by simp [hOps]) (by simpa using hDp)
            · have hm' : entry_hash topic e ∉ st₂.ledger := hLg ▸ hm
              cases hOp2 : w₁.ledgerOk (st₁.ops + 1) with
              | false =>
                  have hOp2' : w₂.ledgerOk (st₂.ops + 1) = false := by
                    rw [← hled, ← hOps]; exact hOp2
                  rw [processEntries_fresh_fail h3 hOp hOp2 hm,
                    processEntries_fresh_fail h3 hOp' hOp2' hm']
                  simp [hLg, hOps, hDp, Dispatch.core]
              | true =>
                  have hOp2' : w₂.ledgerOk (st₂.ops + 1) = true := by
                    rw [← hled, ← hOps]; exact hOp2
                  rw [processEntries_fresh h3 hOp hOp2 hm, processEntries_fresh h3 hOp' hOp2' hm']
                  exact ih (sent + 1) _ _ (by simp [hLg]) (by simp [hOps])
                    (by simp [hDp, Dispatch.core])

/-- C2: for every topic string and feed entry, the fingerprint computed by the
code (`entry_hash`) equals the SHA-256 hex digest of the UTF-8 string
`"{topic}_{identity}"`, where the identity is the entry's id if present, else
its link if present, else the literal `"unknown_id"` (the spec-side
`fingerprintSpec`); and the digest depends only on the topic and the entry's
identity, so two calls with the same (topic, identity) yield the same digest. -/
theorem fingerprint_matches_spec (t : String) (e : Entry) :
    entry_hash t e = fingerprintSpec t e ∧
      ∀ e' : Entry, entry_id e = entry_id e' → entry_hash t e = entry_hash t e' := by
  constructor
  · cases e with
    | mk id link title => cases id <;> cases link <;> rfl
  · intro e' h
    unfold entry_hash
    rw [h]

theorem fingerprint_matches_spec_witness :
    entry_id ⟨some "x", none, none⟩ = entry_id ⟨some "x", some "y", none⟩ ∧
      entry_hash "t" ⟨some "x", none, none⟩ = entry_hash "t" ⟨some "x", some "y", none⟩ :=
  ⟨rfl, (fingerprint_matches_spec "t" ⟨some "x", none, none⟩).2 ⟨some "x", some "y", none⟩ rfl⟩

/-- C9: for distinct topics `t₁ ≠ t₂` and the same entry identity `i`, the
digest input strings `"{t₁}_{i}"` and `"{t₂}_{i}"` are distinct; hence the two
fingerprints can only coincide if SHA-256 has a collision on two distinct
strings. -/
theorem fingerprint_topic_separation (t₁ t₂ i : String) (h : t₁ ≠ t₂) :
    (t₁ ++ "_" ++ i ≠ t₂ ++ "_" ++ i) ∧
      (fingerprintOfIdentity t₁ i = fingerprintOfIdentity t₂ i →
        ∃ s₁ s₂ : String, s₁ ≠ s₂ ∧ sha256Hex (utf8Encode s₁) = sha256Hex (utf8Encode s₂)) := by
  have hne : t₁ ++ "_" ++ i ≠ t₂ ++ "_" ++ i := by
    intro heq
    apply h
    have h2 := congrArg String.data heq
    simp only [String.data_append] at h2
    exact String.ext (List.append_cancel_right (List.append_cancel_right h2))
  exact ⟨hne, fun hfp => ⟨t₁ ++ "_" ++ i, t₂ ++ "_" ++ i, hne, hfp⟩⟩

theorem fingerprint_topic_separation_witness :
    ("a" : String) ≠ "b" ∧
      (("a" ++ "_" ++ "x" : String) ≠ "b" ++ "_" ++ "x") ∧
      (fingerprintOfIdentity "a" "x" = fingerprintOfIdentity "b" "x" →
        ∃ s₁ s₂ : String, s₁ ≠ s₂ ∧ sha256Hex (utf8Encode s₁) = sha256Hex (utf8Encode s₂)) :=
  ⟨by decide, fingerprint_topic_separation "a" "b" "x" (by decide)⟩

/-- C5: for a fixed priority tier, the computed delay (in seconds) is
non-decreasing in the batch sequence number; and for every tier at or above
the urgent threshold 5, the computed delay is `none` (immediate send) at every
sequence position. -/
theorem delay_monotone_in_sequence (p : Int) (n₁ n₂ : Nat) (h : n₁ ≤ n₂) :
    delaySeconds p n₁ ≤ delaySeconds p n₂ ∧ ∀ n, 5 ≤ p → delay_for p n = none := by
  constructor
  · unfold delaySeconds delayValue
    split_ifs <;> simp [unitSeconds] <;> omega
  · intro n h5
    unfold delay_for delayValue
    rw [if_neg (by omega)]
    rfl

theorem delay_monotone_in_sequence_witness :
    (0 : Nat) ≤ 2 ∧ (5 : Int) ≤ 5 ∧ delaySeconds 5 0 ≤ delaySeconds 5 2 ∧ delay_for 5 1 = none :=
  ⟨by decide, by decide, (delay_monotone_in_sequence 5 0 2 (by decide)).1,
    (delay_monotone_in_sequence 5 0 2 (by decide)).2 1 (by decide)⟩

/-- C6 counterexample: the claim reads the tiers with lower numeric value as
higher urgency, and asserts `t₁ < t₂ → delay(t₁, n) ≤ delay(t₂, n)`. At
`t₁ = 2`, `t₂ = 3`, `n = 0` the code computes 15m for tier 2 and 5m for
tier 3, so the delay of the numerically smaller tier is strictly larger:
the claim as stated is false. -/
theorem delay_priority_counterexample : (2 : Int) < 3 ∧ delaySeconds 3 0 < delaySeconds 2 0 := by
  decide

/-- C6 amended: in the code the numerically larger tier is the more urgent one
(tiers ≥ 5 are sent immediately). For every pair of tiers `t₁ ≤ t₂` and every
sequence position, the delay computed for `t₂` is at most the delay computed
for `t₁`: the higher-urgency (numerically larger) tier never delays more. -/
theorem delay_priority_amended (t₁ t₂ : Int) (n : Nat) (h : t₁ ≤ t₂) :
    delaySeconds t₂ n ≤ delaySeconds t₁ n := by
  unfold delaySeconds delayValue
  split_ifs <;> simp [unitSeconds] <;> omega

theorem delay_priority_amended_witness :
    (2 : Int) ≤ 3 ∧ delaySeconds 3 1 ≤ delaySeconds 2 1 :=
  ⟨by decide, delay_priority_amended 2 3 1 (by decide)⟩

/-- C1: if an entry's fingerprint is already in the ledger, re-processing the
source performs no dispatch for that entry and writes no new ledger record for
it: everything the run appends to the dispatch log has a different fingerprint,
and the fingerprint is not among the appended ledger rows. -/
theorem seen_entry_skipped (w : World) (topic : String) (conf : FeedConf)
    (entries : List Entry) (sent : Nat) (st : PState) (e : Entry)
    (hmem : entry_hash topic e ∈ st.ledger) :
    ∃ Δd ΔL,
      (processEntries w topic conf entries sent st).1.dispatches = st.dispatches ++ Δd ∧
      (processEntries w topic conf entries sent st).1.ledger = st.ledger ++ ΔL ∧
      (∀ d ∈ Δd, entry_hash topic d.entry ≠ entry_hash topic e) ∧
      entry_hash topic e ∉ ΔL := by
  obtain ⟨ΔL, Δd, hL, hD, hfd, hfl⟩ := processEntries_delta w topic conf entries sent st
  refine ⟨Δd, ΔL, hD, hL, ?_, fun hx => hfl _ hx hmem⟩
  intro d hd heq
  exact hfd d hd (heq ▸ hmem)

theorem seen_entry_skipped_witness :
    entry_hash "t" (eW 1) ∈ stSeen.ledger ∧
      ∃ Δd ΔL,
        (processEntries wAllOk "t" confW [eW 1, eW 2] 0 stSeen).1.dispatches = stSeen.dispatches ++ Δd ∧
        (processEntries wAllOk "t" confW [eW 1, eW 2] 0 stSeen).1.ledger = stSeen.ledger ++ ΔL ∧
        (∀ d ∈ Δd, entry_hash "t" d.entry ≠ entry_hash "t" (eW 1)) ∧
        entry_hash "t" (eW 1) ∉ ΔL :=
  ⟨by simp [stSeen], seen_entry_skipped wAllOk "t" confW [eW 1, eW 2] 0 stSeen (eW 1) (by simp [stSeen])⟩

/-- C3: in one cycle a source performs at most 3 dispatch attempts no matter
how many unseen entries its feed has: the `sent_in_batch` counter equals the
number of dispatches appended (it increments exactly once per dispatched
entry), it never exceeds 3, and once it has reached 3 the iteration stops,
returning the state unchanged. -/
theorem per_source_cap (w : World) (topic : String) (conf : FeedConf)
    (entries : List Entry) (st : PState) (hw : w.ledgerOk = fun _ => true) :
    (processEntries w topic conf entries 0 st).1.dispatches.length
        = st.dispatches.length + (processEntries w topic conf entries 0 st).2.1 ∧
      (processEntries w topic conf entries 0 st).2.1 ≤ 3 ∧
      ∀ (e : Entry) (rest : List Entry) (sent : Nat) (st' : PState),
        3 ≤ sent → processEntries w topic conf (e :: rest) sent st' = (st', sent, false) := by
  obtain ⟨h1, h2, h3⟩ := processEntries_sent w topic conf hw entries 0 st
  exact ⟨by omega, by simpa using h3, fun e rest sent st' h => processEntries_cap h⟩

theorem per_source_cap_witness :
    (wAllOk.ledgerOk = fun _ => true) ∧
      (processEntries wAllOk "t" confW [eW 1, eW 2, eW 3, eW 4] 0 st0).2.1 ≤ 3 :=
  ⟨rfl, (per_source_cap wAllOk "t" confW [eW 1, eW 2, eW 3, eW 4] st0 rfl).2.1⟩

/-- C7: a failing HTTP post is caught inside `send_ntfy` and never alters the
run: under any two send-outcome oracles (with a healthy ledger) the final
ledger, the dispatch log modulo the logged outcome bit, the final counter and
the abort flag are identical; and every dispatched entry's fingerprint is in
the final ledger, exactly as if the dispatch had succeeded. -/
theorem dispatch_failure_still_recorded (w₁ w₂ : World) (topic : String) (conf : FeedConf)
    (entries : List Entry) (sent : Nat) (st : PState)
    (hw₁ : w₁.ledgerOk = fun _ => true) (hw₂ : w₂.ledgerOk = fun _ => true) :
    (processEntries w₁ topic conf entries sent st).1.ledger
        = (processEntries w₂ topic conf entries sent st).1.ledger ∧
      (processEntries w₁ topic conf entries sent st).1.dispatches.map Dispatch.core
        = (processEntries w₂ topic conf entries sent st).1.dispatches.map Dispatch.core ∧
      (processEntries w₁ topic conf entries sent st).2
        = (processEntries w₂ topic conf entries sent st).2 ∧
      ∀ d ∈ (processEntries w₁ topic conf entries sent st).1.dispatches,
        d ∈ st.dispatches ∨
          entry_hash topic d.entry ∈ (processEntries w₁ topic conf entries sent st).1.ledger := by
  obtain ⟨hA, hOps, hCore, hSnd⟩ :=
    processEntries_core_eq w₁ w₂ (hw₁.trans hw₂.symm) topic conf entries sent st st rfl rfl rfl
  exact ⟨hA, hCore, hSnd, processEntries_recorded w₁ topic conf hw₁ entries sent st⟩

theorem dispatch_failure_still_recorded_witness :
    (wAllOk.ledgerOk = fun _ => true) ∧ (wNoSend.ledgerOk = fun _ => true) ∧
      (processEntries wAllOk "t" confW [eW 1] 0 st0).1.ledger
        = (processEntries wNoSend "t" confW [eW 1] 0 st0).1.ledger :=
  ⟨rfl, rfl, (dispatch_failure_still_recorded wAllOk wNoSend "t" confW [eW 1] 0 st0 rfl rfl).1⟩

set_option maxHeartbeats 1000000 in
/-- C8 counterexample: the claim asserts that a ledger failure aborts the whole
cycle, with no further sources processed. In a file with two sources, where the
very first ledger operation (the SELECT for source `s1`'s entry) raises, source
`s1`'s processing aborts — yet the cycle still dispatches source `s2`'s entry:
further sources ARE processed, so the claim as stated is false. -/
theorem ledger_failure_counterexample :
    wFail0.ledgerOk 0 = false ∧
      (processEntries wFail0 "t" confA (fetchW confA.url) 0 st0).2.2 = true ∧
      (processConfigFile wFail0 fetchW "t" [confA, confB] st0).dispatches.map
          (fun d => d.source_name) = ["s2"] := by
  decide

/-- C8 amended: a ledger failure is fatal only to the current source, not to
the cycle: the per-source `except` catches it, so processing one file always
continues past an aborted source to the remaining sources (first conjunct),
and a failing ledger operation stops the current source immediately — its
remaining entries are neither dispatched nor recorded (second conjunct). The
cycle itself is a total function, so the process does not exit. -/
theorem ledger_failure_amended (w : World) (fetch : String → List Entry) (topic : String)
    (conf : FeedConf) (confs : List FeedConf) (st : PState) :
    processConfigFile w fetch topic (conf :: confs) st
        = processConfigFile w fetch topic confs ((processEntries w topic conf (fetch conf.url) 0 st).1) ∧
      ∀ (e : Entry) (rest : List Entry) (sent : Nat) (st' : PState),
        ¬ 3 ≤ sent → w.ledgerOk st'.ops = false →
        processEntries w topic conf (e :: rest) sent st'
          = ({ st' with ops := st'.ops + 1 }, sent, true) :=
  ⟨rfl, fun _ _ _ _ h3 hf => processEntries_fail h3 hf⟩

theorem ledger_failure_amended_witness :
    (¬ (3 : Nat) ≤ 0) ∧ wFail0.ledgerOk st0.ops = false ∧
      processEntries wFail0 "t" confA [eW 1] 0 st0 = ({ st0 with ops := st0.ops + 1 }, 0, true) :=
  ⟨by decide, by decide,
    (ledger_failure_amended wFail0 fetchW "t" confA [] st0).2 (eW 1) [] 0 st0 (by decide) (by decide)⟩

/-- C10: files whose name does not end in `".json"` are silently skipped: every
selected file name ends in `".json"`, the selected files are exactly the
`.json` files in sorted (lexicographic) order, and a cycle's outcome is
unchanged when non-`.json` files are removed from the directory listing — so
their contents are never processed or dispatched. -/
theorem json_filter_sorted (listing : List String) :
    (∀ f ∈ selectConfigFiles listing, strEndsWith f ".json" = true) ∧
      List.Sorted (· ≤ ·) (selectConfigFiles listing) ∧
      (selectConfigFiles listing).Perm (listing.filter (fun f => strEndsWith f ".json")) ∧
      ∀ (w : World) (fetch : String → List Entry) (contents : String → List FeedConf) (st : PState),
        processCycle w fetch contents listing st
          = processCycle w fetch contents (listing.filter (fun f => strEndsWith f ".json")) st := by
  refine ⟨?_, ?_, ?_, ?_⟩
  · intro f hf
    unfold selectConfigFiles at hf
    have hperm := List.mergeSort_perm (listing.filter (fun f => strEndsWith f ".json"))
      (fun a b => decide (a ≤ b))
    exact (List.mem_filter.mp (hperm.mem_iff.mp hf)).2
  · exact List.sorted_mergeSort' _
  · exact List.mergeSort_perm _ _
  · intro w fetch contents st
    unfold processCycle selectConfigFiles
    rw [List.filter_filter]
    simp

theorem json_filter_sorted_witness :
    (strEndsWith "a.json" ".json" = true) ∧
      processCycle wAllOk fetchW (fun _ => [confA]) ["b.txt", "a.json"] st0
        = processCycle wAllOk fetchW (fun _ => [confA])
            (["b.txt", "a.json"].filter (fun f => strEndsWith f ".json")) st0 :=
  ⟨(json_filter_sorted ["b.txt", "a.json"]).1 "a.json"
      ((List.mergeSort_perm _ _).mem_iff.mpr (by decide)),
    (json_filter_sorted ["b.txt", "a.json"]).2.2.2 wAllOk fetchW (fun _ => [confA]) st0⟩

/-- C4: a source with priority tier 3 and five unseen entries (with pairwise
distinct fingerprints) yields in one cycle exactly 3 dispatch attempts for the
first three entries, with delays `"5m"`, `"10m"`, `"15m"` in that order,
exactly 3 new ledger records, and the remaining 2 entries' fingerprints stay
absent from the ledger; the batch counter ends at 3. -/
theorem tier3_five_entries (w : World) (topic : String) (conf : FeedConf)
    (e₁ e₂ e₃ e₄ e₅ : Entry) (st : PState)
    (hw : w.ledgerOk = fun _ => true)
    (hprio : conf.priority = some 3)
    (hfresh : ∀ x ∈ [entry_hash topic e₁, entry_hash topic e₂, entry_hash topic e₃,
        entry_hash topic e₄, entry_hash topic e₅], x ∉ st.ledger)
    (hnodup : ([entry_hash topic e₁, entry_hash topic e₂, entry_hash topic e₃,
        entry_hash topic e₄, entry_hash topic e₅] : List String).Nodup) :
    (processEntries w topic conf [e₁, e₂, e₃, e₄, e₅] 0 st).1.dispatches.map
          (fun d => (d.entry, d.delay))
        = st.dispatches.map (fun d => (d.entry, d.delay))
            ++ [(e₁, some "5m"), (e₂, some "10m"), (e₃, some "15m")] ∧
      (processEntries w topic conf [e₁, e₂, e₃, e₄, e₅] 0 st).1.ledger
        = st.ledger ++ [entry_hash topic e₁, entry_hash topic e₂, entry_hash topic e₃] ∧
      entry_hash topic e₄ ∉ (processEntries w topic conf [e₁, e₂, e₃, e₄, e₅] 0 st).1.ledger ∧
      entry_hash topic e₅ ∉ (processEntries w topic conf [e₁, e₂, e₃, e₄, e₅] 0 st).1.ledger ∧
      (processEntries w topic conf [e₁, e₂, e₃, e₄, e₅] 0 st).2.1 = 3 := by
  have ht : ∀ k, w.ledgerOk k = true := fun k => by rw [hw]
  have f₁ : entry_hash topic e₁ ∉ st.ledger := hfresh _ (by simp)
  have f₂ : entry_hash topic e₂ ∉ st.ledger := hfresh _ (by simp)
  have f₃ : entry_hash topic e₃ ∉ st.ledger := hfresh _ (by simp)
  have f₄ : entry_hash topic e₄ ∉ st.ledger := hfresh _ (by simp)
  have f₅ : entry_hash topic e₅ ∉ st.ledger := hfresh _ (by simp)
  simp only [List.nodup_cons, List.mem_cons, List.not_mem_nil, or_false, not_or] at hnodup
  obtain ⟨⟨n12, n13, n14, n15⟩, ⟨n23, n24, n25⟩, ⟨n34, n35⟩, n45, -⟩ := hnodup
  have hp3 : conf.priority.getD 3 = 3 := by rw [hprio]; rfl
  have m₂ : entry_hash topic e₂ ∉ st.ledger ++ [entry_hash topic e₁] := by
    simp only [List.mem_append, List.mem_singleton, not_or]
    exact ⟨f₂, Ne.symm n12⟩
  have m₃ : entry_hash topic e₃ ∉ (st.ledger ++ [entry_hash topic e₁]) ++ [entry_hash topic e₂] := by
    simp only [List.mem_append, List.mem_singleton, not_or]
    exact ⟨⟨f₃, Ne.symm n13⟩, Ne.symm n23⟩
  have d1 : delay_for (conf.priority.getD 3) 0 = some "5m" := by rw [hp3]; decide
  have d2 : delay_for (conf.priority.getD 3) (0 + 1) = some "10m" := by rw [hp3]; decide
  have d3 : delay_for (conf.priority.getD 3) (0 + 1 + 1) = some "15m" := by rw [hp3]; decide
  rw [processEntries_fresh (by omega) (ht _) (ht _) f₁]
  rw [processEntries_fresh (by omega) (ht _) (ht _) m₂]
  rw [processEntries_fresh (by omega) (ht _) (ht _) m₃]
  rw [processEntries_cap (by omega)]
  refine ⟨?_, ?_, ?_, ?_, ?_⟩
  · simp [d1, d2, d3]
  · simp
  · simp [f₄, Ne.symm n14, Ne.symm n24, Ne.symm n34]
  · simp [f₅, Ne.symm n15, Ne.symm n25, Ne.symm n35]
  · rfl

/-- Concrete digest of entry `a1` under topic `news`, pinned for the C4 witness. -/
theorem entry_hash_news_a1 :
    entry_hash "news" (eW 1) = "de79a3ff3569d8344a65d1c30a5caf63ae4a9e52450a4582dccf30672d0e92f2" := by
  decide

/-- Concrete digest of entry `a2` under topic `news`, pinned for the C4 witness. -/
theorem entry_hash_news_a2 :
    entry_hash "news" (eW 2) = "87ec073aad739ed06a4d15f06715a98a4d4559e09bfc3b9961e2d412204dfec8" := by
  decide

/-- Concrete digest of entry `a3` under topic `news`, pinned for the C4 witness. -/
theorem entry_hash_news_a3 :
    entry_hash "news" (eW 3) = "7a116c2e5f78d3194d61ebf2a3a44cba9b384520a5116c2c4cac8bfe95fc7cec" := by
  decide

/-- Concrete digest of entry `a4` under topic `news`, pinned for the C4 witness. -/
theorem entry_hash_news_a4 :
    entry_hash "news" (eW 4) = "71acdd5ce4ad3693128f1fd3b5acfa7aa8aff836d8ee0f85e2bcc1d819a893e6" := by
  decide

/-- Concrete digest of entry `a5` under topic `news`, pinned for the C4 witness. -/
theorem entry_hash_news_a5 :
    entry_hash "news" (eW 5) = "a207810a6816664c82c65e3c392442dddd16fc724b2650c003fca3e67f79db61" := by
  decide

theorem tier3_five_entries_witness :
    ([entry_hash "news" (eW 1), entry_hash "news" (eW 2), entry_hash "news" (eW 3),
        entry_hash "news" (eW 4), entry_hash "news" (eW 5)] : List String).Nodup ∧
      (processEntries wAllOk "news" confW [eW 1, eW 2, eW 3, eW 4, eW 5] 0 st0).1.dispatches.map
          (fun d => (d.entry, d.delay))
        = [(eW 1, some "5m"), (eW 2, some "10m"), (eW 3, some "15m")] ∧
      (processEntries wAllOk "news" confW [eW 1, eW 2, eW 3, eW 4, eW 5] 0 st0).2.1 = 3 := by
  have hnd : ([entry_hash "news" (eW 1), entry_hash "news" (eW 2), entry_hash "news" (eW 3),
      entry_hash "news" (eW 4), entry_hash "news" (eW 5)] : List String).Nodup := by
    rw [entry_hash_news_a1, entry_hash_news_a2, entry_hash_news_a3, entry_hash_news_a4,
      entry_hash_news_a5]
    decide
  have h := tier3_five_entries wAllOk "news" confW (eW 1) (eW 2) (eW 3) (eW 4) (eW 5) st0
    rfl rfl (by simp [st0]) hnd
  exact ⟨hnd, by simpa [st0] using h.1, h.2.2.2.2⟩

/-- Sanity check: the embedded SHA-256 reproduces the FIPS 180-4 test vector
for the message `"abc"`. -/
theorem sha256Hex_abc :
    sha256Hex (utf8Encode "abc")
      = "ba7816bf8f01cfea414140de5dae2223b00361a396177a9cb410ff61f20015ad" := by
  decide
